import Mathlib

/-!
Verification of the FinOps-Bot tool-call budget and interruption controller.

The repository is a family of Streamlit chat prototypes (finops-bot.py …
finops-bot7.py).  The logic with real control-flow content is:

* `ToolCallLimitHook` / the stream-loop budget gate (finops-bot6.py lines
  10-28, finops-bot4.py lines 157-192): counting tool invocations against a
  ceiling of 5 and interrupting the run;
* `RealTimeQueryLogHook` (finops-bot6.py lines 31-56): the per-turn query log;
* the interrupt-state block (finops-bot6.py lines 232-272): continue / stop
  resolution of a pending interruption;
* the turn-level exception handlers (finops-bot6.py lines 347-351,
  finops-bot.py lines 62-72);
* `get_conversation_context` and `is_user_confirmation`
  (finops-bot3.py lines 91-110).

Python strings are modelled as `List Char`; Python's `in` operator on strings
is `pySubstr`, `str.lower` is `pyLower` (ASCII case folding suffices for the
claims below), `str.strip` is `pyStrip`.  Stateful code is modelled by
explicit state passing; the hook-raised `Interrupt` exception is modelled by
an aborting flag in the run state.
-/

namespace FinOpsBot

/-- Python `str.lower`, character by character. -/
def pyLower (s : List Char) : List Char := s.map Char.toLower

/-- Python `str.strip`: drop whitespace from both ends. -/
def pyStrip (s : List Char) : List Char :=
  ((s.dropWhile Char.isWhitespace).reverse.dropWhile Char.isWhitespace).reverse

/-- Python `needle in haystack` on strings: substring containment. -/
def pySubstr (needle : List Char) : List Char → Bool
  | [] => needle.isEmpty
  | c :: rest => needle.isPrefixOf (c :: rest) || pySubstr needle rest

/-- One entry of `RealTimeQueryLogHook.queries` (finops-bot6.py lines 43-47):
a dict with the query text and a status string.  The timestamp field is
wall-clock display data and is not modelled. -/
structure QueryRecord where
  sql : List Char
  status : List Char
  deriving DecidableEq, Repr

/-- A chat message: a Python dict with "role", "content" and (in the hook
variants) an optional "query_log" key. -/
structure Msg where
  role : List Char
  content : List Char
  query_log : Option (List QueryRecord) := none
  deriving DecidableEq, Repr

/-- Role label used by `get_conversation_context`:
`"사용자" if msg["role"] == "user" else "AI"`. -/
def role_label (m : Msg) : List Char :=
  if m.role = "user".data then "사용자".data else "AI".data

/-- One rendered context line: `f"{role}: {msg['content']}"` (finops-bot3.py
line 101). -/
def render_msg (m : Msg) : List Char := role_label m ++ ": ".data ++ m.content

/-- Python `sep.join(parts)`. -/
def join_sep (sep : List Char) : List (List Char) → List Char
  | [] => []
  | [x] => x
  | x :: y :: rest => x ++ sep ++ join_sep sep (y :: rest)

/-- `get_conversation_context(messages, max_pairs=3)` (finops-bot3.py lines
91-102, identical in finops-bot5/6/7).  The Python slice
`messages[-(max_messages + 1):-1]` is rendered with truncated `Nat`
subtraction, which matches Python's clamping of negative start indices. -/
def get_conversation_context (messages : List Msg) (max_pairs : Nat) :
    List Char :=
  if messages.length ≤ 1 then []
  else
    let max_messages := max_pairs * 2
    let start := messages.length - (max_messages + 1)
    let recent_messages := (messages.drop start).take ((messages.length - 1) - start)
    if recent_messages = [] then []
    else join_sep "\n\n".data (recent_messages.map render_msg)

/-- The confirmation keyword list of `is_user_confirmation` (finops-bot3.py
lines 106-109). -/
def confirmation_keywords : List (List Char) :=
  ["예".data, "yes".data, "y".data, "네".data, "응".data, "그래".data,
   "계속".data, "진행".data, "ok".data, "okay".data, "좋아".data,
   "알겠어".data, "해줘".data, "부탁해".data]

/-- `is_user_confirmation(text)` (finops-bot3.py lines 104-110):
`any(keyword in text.lower().strip() for keyword in confirmation_keywords)`. -/
def is_user_confirmation (text : List Char) : Bool :=
  let text_lower := pyStrip (pyLower text)
  confirmation_keywords.any (fun k => pySubstr k text_lower)

/-- The inline approval keyword list of finops-bot4.py line 124. -/
def bot4_approval_keywords : List (List Char) :=
  ["y".data, "예".data, "응".data, "yes".data, "go".data]

/-- The stream variant's inline approval test (finops-bot4.py line 124):
`any(x in prompt.lower() for x in ['y', '예', '응', 'yes', 'go'])`. -/
def bot4_is_approval (prompt : List Char) : Bool :=
  bot4_approval_keywords.any (fun k => pySubstr k (pyLower prompt))

/-- Which branch the finops-bot3 confirmation handler takes. -/
inductive TurnBranch
  | resetAndContinue
  | declineAndStop
  | normalRun
  deriving DecidableEq, Repr

/-- The budget-relevant session fields of finops-bot3. -/
structure Bot3State where
  query_count : Nat
  waiting_for_confirmation : Bool
  deriving DecidableEq, Repr

/-- The confirmation-wait handler of finops-bot3.py lines 227-240: when
waiting, an approving message resets `query_count` to 0 and continues;
any other message declines; otherwise the normal turn runs. -/
def bot3_confirmation_step (st : Bot3State) (user_message : List Char) :
    Bot3State × TurnBranch :=
  if st.waiting_for_confirmation then
    if is_user_confirmation user_message then
      (⟨0, false⟩, TurnBranch.resetAndContinue)
    else
      (⟨st.query_count, false⟩, TurnBranch.declineAndStop)
  else (st, TurnBranch.normalRun)

/-! ### Helper lemmas on the string model -/

lemma pySubstr_singleton (c : Char) :
    ∀ l : List Char, pySubstr [c] l = true ↔ c ∈ l := by
  intro l
  induction l with
  | nil => simp [pySubstr, List.isEmpty]
  | cons b bs ih =>
    simp only [pySubstr, List.isPrefixOf, Bool.or_eq_true, Bool.and_eq_true,
      List.mem_cons]
    constructor
    · rintro (⟨h, -⟩ | h)
      · exact Or.inl (by simpa [eq_comm] using (beq_iff_eq.mp h))
      · exact Or.inr (ih.mp h)
    · rintro (rfl | h)
      · exact Or.inl ⟨beq_iff_eq.mpr rfl, by simp [List.isPrefixOf]⟩
      · exact Or.inr (ih.mpr h)

lemma mem_dropWhile_of_mem {p : Char → Bool} {a : Char} (ha : p a = false) :
    ∀ l : List Char, a ∈ l → a ∈ l.dropWhile p := by
  intro l
  induction l with
  | nil => simp
  | cons b bs ih =>
    intro hmem
    by_cases hb : p b = true
    · rw [List.dropWhile_cons_of_pos hb]
      rcases List.mem_cons.mp hmem with rfl | h
      · exact absurd hb (by simp [ha])
      · exact ih h
    · rw [List.dropWhile_cons_of_neg hb]
      exact hmem

lemma mem_pyStrip_of_mem {a : Char} (ha : a.isWhitespace = false)
    {l : List Char} (h : a ∈ l) : a ∈ pyStrip l := by
  unfold pyStrip
  rw [List.mem_reverse]
  apply mem_dropWhile_of_mem ha
  rw [List.mem_reverse]
  exact mem_dropWhile_of_mem ha _ h

/-! ### The tool-call limit hook (finops-bot6.py lines 10-28) -/

/-- The mutable fields of `ToolCallLimitHook`. -/
structure ToolCallLimitHook where
  soft_limit : Nat
  tool_call_count : Nat
  deriving DecidableEq, Repr

/-- `ToolCallLimitHook.on_tool_execution_end` (finops-bot6.py lines 15-25):
increment the counter, then raise `Interrupt` exactly when the incremented
counter equals `soft_limit`.  The returned `Bool` is true when the
`Interrupt` is raised. -/
def limit_hook_on_tool_execution_end (h : ToolCallLimitHook) :
    ToolCallLimitHook × Bool :=
  let h' : ToolCallLimitHook := ⟨h.soft_limit, h.tool_call_count + 1⟩
  (h', h'.tool_call_count == h'.soft_limit)

/-- The exhaustion test as the spec words it (`is_exhausted() -> bool`:
`count >= limit`).  This definition follows the spec's words, to be compared
with the hook's actual interruption condition. -/
def spec_is_exhausted (h : ToolCallLimitHook) : Bool :=
  decide (h.tool_call_count ≥ h.soft_limit)

/-! ### The real-time query log hook (finops-bot6.py lines 31-56) -/

/-- The mutable fields of `RealTimeQueryLogHook` (the Streamlit container is
display-only and not modelled). -/
structure QueryLogHook where
  queries : List QueryRecord
  query_count : Nat
  deriving DecidableEq, Repr

def status_running : List Char := "실행 중".data

def status_done : List Char := "완료 ✅".data

/-- The tool-name filter `'execute_query' in event.tool_name`
(finops-bot6.py lines 39 and 55). -/
def is_query_tool (tool_name : List Char) : Bool :=
  pySubstr "execute_query".data tool_name

/-- `RealTimeQueryLogHook.on_tool_execution_start` (finops-bot6.py lines
37-52): only tools whose name contains 'execute_query' are recorded. -/
def log_hook_on_start (h : QueryLogHook) (tool_name sql : List Char) :
    QueryLogHook :=
  if is_query_tool tool_name then
    ⟨h.queries ++ [⟨sql, status_running⟩], h.query_count + 1⟩
  else h

/-- `self.queries[-1]["status"] = "완료 ✅"`: update the status of the last
entry, leaving everything else unchanged. -/
def set_last_done : List QueryRecord → List QueryRecord
  | [] => []
  | [q] => [⟨q.sql, status_done⟩]
  | q :: r :: rest => q :: set_last_done (r :: rest)

/-- `RealTimeQueryLogHook.on_tool_execution_end` (finops-bot6.py lines
54-56): `if 'execute_query' in event.tool_name and self.queries:` mark the
most recently started entry completed. -/
def log_hook_on_end (h : QueryLogHook) (tool_name : List Char) :
    QueryLogHook :=
  if is_query_tool tool_name && !h.queries.isEmpty then
    ⟨set_last_done h.queries, h.query_count⟩
  else h

/-! ### A hook-governed agent run (finops-bot6.py)

An agent run with both hooks attached (`create_agent`, lines 121-127,
registers `ToolCallLimitHook` first and the query-log hook second) executes a
sequence of tool calls.  For each call the start event fires (the call is
dispatched to the remote tool transport and the log hook records it), then
the end event fires: the limit hook runs first and, if it raises `Interrupt`,
the remaining end-event callbacks and the rest of the run are aborted. -/

/-- One tool invocation: the tool's name and its "sql" input. -/
structure ToolCall where
  name : List Char
  sql : List Char
  deriving DecidableEq, Repr

structure Bot6RunState where
  limit : ToolCallLimitHook
  log : QueryLogHook
  dispatched : Nat
  interrupted : Bool
  deriving DecidableEq, Repr

/-- Execute a list of tool calls under both hooks, aborting when the limit
hook raises `Interrupt`. -/
def bot6_full_run (st : Bot6RunState) : List ToolCall → Bot6RunState
  | [] => st
  | c :: rest =>
    let st1 : Bot6RunState :=
      { st with log := log_hook_on_start st.log c.name c.sql,
                dispatched := st.dispatched + 1 }
    let p := limit_hook_on_tool_execution_end st1.limit
    if p.2 then { st1 with limit := p.1, interrupted := true }
    else bot6_full_run
      { st1 with limit := p.1, log := log_hook_on_end st1.log c.name } rest

/-- The state of a fresh turn in finops-bot6: `create_agent` builds a new
`ToolCallLimitHook(soft_limit=5)` and a new query-log hook. -/
def bot6_fresh : Bot6RunState := ⟨⟨5, 0⟩, ⟨[], 0⟩, 0, false⟩

/-! ### The finops-bot4 stream event loop (lines 157-192) -/

/-- Stream events as the loop classifies them: branch A fires for events
whose runtime type name contains "Tool" and "Use" or "Call" (a tool
invocation); branches B and C accumulate answer text and are collapsed into
`chunk`. -/
inductive Bot4Event
  | toolUse (tool_name : List Char)
  | chunk (text : List Char)
  deriving DecidableEq, Repr

/-- `max_queries = 5` (finops-bot4.py line 93). -/
def bot4_max_queries : Nat := 5

/-- The budget-relevant loop state: `st.session_state.query_count`,
`st.session_state.waiting_for_confirmation`, and the names of the tool calls
that passed the budget gate (and hence were allowed to proceed to the remote
tool transport). -/
structure Bot4LoopState where
  query_count : Nat
  waiting_for_confirmation : Bool
  dispatched : List (List Char)
  deriving DecidableEq, Repr

/-- The core event loop of finops-bot4.py lines 157-192.  On a tool event
with `query_count >= max_queries` the loop warns, sets the confirmation flag
and breaks (the rest of the stream is not consumed); otherwise the counter
increments and the call proceeds. -/
def bot4_loop (st : Bot4LoopState) : List Bot4Event → Bot4LoopState
  | [] => st
  | Bot4Event.toolUse name :: rest =>
    if st.query_count ≥ bot4_max_queries then
      { st with waiting_for_confirmation := true }
    else
      bot4_loop { st with query_count := st.query_count + 1,
                          dispatched := st.dispatched ++ [name] } rest
  | Bot4Event.chunk _ :: rest => bot4_loop st rest

/-! ### Agents, the interrupt snapshot and its resolution (finops-bot6.py) -/

/-- A hook attached to an agent. -/
inductive AgentHook
  | limitHook (h : ToolCallLimitHook)
  | queryLogHook
  deriving DecidableEq, Repr

/-- The configuration `create_agent` assembles: the tool list obtained from
`mcp_client.list_tools_sync()`, the hook list, and the conversation held in
`agent.messages`. -/
structure AgentConfig where
  tools : List (List Char)
  hooks : List AgentHook
  messages : List Msg
  deriving DecidableEq, Repr

/-- `create_agent(mcp_client, with_hook=True, query_log_hook=None)`
(finops-bot6.py lines 80-127).  The client is represented by its tool list;
`hooks = []`, then `ToolCallLimitHook(soft_limit=5)` is appended when
`with_hook`, then the query-log hook when one is passed. -/
def create_agent (client_tools : List (List Char)) (with_hook : Bool)
    (query_log_hook : Bool) : AgentConfig :=
  { tools := client_tools,
    hooks := (if with_hook then [AgentHook.limitHook ⟨5, 0⟩] else []) ++
             (if query_log_hook then [AgentHook.queryLogHook] else []),
    messages := [] }

/-- Whether an agent carries the budget hook (only such an agent can raise
the tool-limit `Interrupt`). -/
def agent_has_limit_hook (a : AgentConfig) : Bool :=
  a.hooks.any (fun h => match h with
    | AgentHook.limitHook _ => true
    | AgentHook.queryLogHook => false)

/-- The run-time state of the interrupted main agent that the session keeps
inside `interrupt_state["agent"]`: its limit-hook state and its messages
(tool-call history and partial reasoning). -/
structure Bot6Agent where
  hook : ToolCallLimitHook
  messages : List Msg
  deriving DecidableEq, Repr

/-- `st.session_state.interrupt_state` (finops-bot6.py lines 339-344). -/
structure InterruptData where
  message : List Char
  partial_summary : List Char
  agent : Bot6Agent
  query_log : List QueryRecord
  deriving DecidableEq, Repr

/-- Externally visible side effects of a handler block. -/
inductive Effect
  | agentInvoke (prompt : List Char)
  | agentResume
  deriving DecidableEq, Repr

/-- The `except Interrupt` handler (finops-bot6.py lines 325-345): build
`temp_agent = create_agent(client, with_hook=False)` — note the query-log
hook is also absent and the tools are still the client's tools — copy the
main agent's messages into it, invoke it on the interrupt's fixed
`partial_summary_prompt`, and store the interrupt snapshot.  The text the
temporary agent produces is the parameter `summary_text`. -/
def bot6_interrupt_handler (client_tools : List (List Char))
    (agent : Bot6Agent) (intr_message summary_prompt : List Char)
    (queries : List QueryRecord) (summary_text : List Char) :
    InterruptData × AgentConfig × List Effect :=
  let temp0 := create_agent client_tools false false
  let temp_agent : AgentConfig := { temp0 with messages := agent.messages }
  (⟨intr_message, summary_text, agent, queries⟩,
   temp_agent,
   [Effect.agentInvoke summary_prompt])

/-- The continue-button handler (finops-bot6.py lines 242-260):
`interrupt_data["agent"].resume()` — the resumed run continues with the
stored agent's hook state exactly as it was (no reset), processing whatever
further tool calls the resumed generation makes; the resulting text is
appended with the captured query log, and the snapshot is cleared. -/
def bot6_continue_handler (msgs : List Msg) (d : InterruptData)
    (further_calls : List ToolCall) (resumed_text : List Char) :
    List Msg × Option InterruptData × Bot6RunState :=
  let run := bot6_full_run
    ⟨d.agent.hook, ⟨d.query_log, d.query_log.length⟩, 0, false⟩ further_calls
  (msgs ++ [⟨"assistant".data, resumed_text, some d.query_log⟩], none, run)

/-- The user's decision at a pending interruption. -/
inductive UserChoice
  | approveContinue
  | stopHere
  deriving DecidableEq, Repr

/-- The session fields the interrupt-state block touches. -/
structure Session6 where
  messages : List Msg
  interrupt_state : Option InterruptData
  deriving DecidableEq, Repr

/-- The interrupt-state block (finops-bot6.py lines 232-272).  The block is
guarded by `if st.session_state.interrupt_state:` — with no pending snapshot
nothing is rendered and no action runs.  Continue resumes the agent (the
lone `agentResume` effect; on an exception during resume the snapshot is
still cleared); stop finalizes the captured partial summary with the
captured query log and performs no agent call. -/
def interrupt_block (st : Session6) (choice : UserChoice)
    (resume_result : Except (List Char) (List Char)) :
    Session6 × List Effect :=
  match st.interrupt_state with
  | none => (st, [])
  | some d =>
    match choice with
    | UserChoice.approveContinue =>
      match resume_result with
      | Except.ok text =>
        (⟨st.messages ++ [⟨"assistant".data, text, some d.query_log⟩], none⟩,
         [Effect.agentResume])
      | Except.error _ =>
        (⟨st.messages, none⟩, [Effect.agentResume])
    | UserChoice.stopHere =>
      (⟨st.messages ++
          [⟨"assistant".data, d.partial_summary, some d.query_log⟩], none⟩,
       [])

/-! ### Turn-level failure handling -/

/-- The `except Exception` handler of finops-bot6.py lines 347-351: the
thrown detail is wrapped in a visible assistant message.  The appended dict
has no "query_log" key — the query log gathered before the failure is not
attached. -/
def bot6_error_handler (msgs : List Msg) (detail : List Char) : List Msg :=
  msgs ++ [⟨"assistant".data, "❌ 오류 발생: ".data ++ detail, none⟩]

/-- The finops-bot.py turn handler (lines 62-72): the user message is
appended and the agent is invoked with no exception guard, so a failure
propagates out of the turn. -/
def bot1_turn (msgs : List Msg) (prompt : List Char)
    (agent_result : Except (List Char) (List Char)) :
    Except (List Char) (List Msg) :=
  let msgs1 := msgs ++ [⟨"user".data, prompt, none⟩]
  match agent_result with
  | Except.error e => Except.error e
  | Except.ok r => Except.ok (msgs1 ++ [⟨"assistant".data, r, none⟩])

lemma isPrefixOf_self (l : List Char) : l.isPrefixOf l = true := by
  induction l with
  | nil => rfl
  | cons a as ih => simp [List.isPrefixOf, ih]

lemma pySubstr_append_self (pre n : List Char) :
    pySubstr n (pre ++ n) = true := by
  induction pre with
  | nil =>
    cases n with
    | nil => rfl
    | cons c rest => simp [pySubstr, isPrefixOf_self]
  | cons b bs ih => simp [pySubstr, ih]

lemma set_last_done_length :
    ∀ l : List QueryRecord, (set_last_done l).length = l.length
  | [] => rfl
  | [_] => rfl
  | _ :: r :: rest => by
    simp only [set_last_done, List.length_cons, set_last_done_length (r :: rest)]

lemma set_last_done_dropLast :
    ∀ l : List QueryRecord, (set_last_done l).dropLast = l.dropLast
  | [] => rfl
  | [_] => rfl
  | q :: r :: rest => by
    have hne : set_last_done (r :: rest) ≠ [] := by
      intro h
      have := set_last_done_length (r :: rest)
      rw [h] at this
      simp at this
    simp only [set_last_done]
    rw [List.dropLast_cons_of_ne_nil hne, List.dropLast_cons_of_ne_nil (by simp)]
    rw [set_last_done_dropLast (r :: rest)]

lemma set_last_done_map_sql :
    ∀ l : List QueryRecord, (set_last_done l).map QueryRecord.sql
      = l.map QueryRecord.sql
  | [] => rfl
  | [_] => rfl
  | _ :: r :: rest => by
    simp only [set_last_done, List.map_cons, set_last_done_map_sql (r :: rest)]

lemma length_log_hook_on_start (h : QueryLogHook) (nm sql : List Char) :
    (log_hook_on_start h nm sql).queries.length =
      h.queries.length + (if is_query_tool nm then 1 else 0) := by
  unfold log_hook_on_start
  split <;> simp

lemma length_log_hook_on_end (h : QueryLogHook) (nm : List Char) :
    (log_hook_on_end h nm).queries.length = h.queries.length := by
  unfold log_hook_on_end
  split
  · exact set_last_done_length h.queries
  · rfl

/-! ### The behaviour of a full hook-governed run -/

/-- Processing a list of tool calls from a hook count `c < 5`: exactly
`k = min calls.length (5 - c)` calls are dispatched and counted, the log
grows by the query-named calls among those `k`, and the run is interrupted
iff at least `5 - c` calls were available. -/
lemma bot6_full_run_spec (calls : List ToolCall) :
    ∀ (c : Nat) (qs : List QueryRecord) (qn d : Nat), c < 5 →
      (bot6_full_run ⟨⟨5, c⟩, ⟨qs, qn⟩, d, false⟩ calls).limit
          = ⟨5, c + min calls.length (5 - c)⟩ ∧
      (bot6_full_run ⟨⟨5, c⟩, ⟨qs, qn⟩, d, false⟩ calls).dispatched
          = d + min calls.length (5 - c) ∧
      (bot6_full_run ⟨⟨5, c⟩, ⟨qs, qn⟩, d, false⟩ calls).log.queries.length
          = qs.length + ((calls.take (min calls.length (5 - c))).filter
              (fun t => is_query_tool t.name)).length ∧
      (bot6_full_run ⟨⟨5, c⟩, ⟨qs, qn⟩, d, false⟩ calls).interrupted
          = decide (5 - c ≤ calls.length) := by
  induction calls with
  | nil =>
    intro c qs qn d hc
    have h0 : ¬ (5 - c ≤ 0) := by omega
    simp [bot6_full_run, h0]
  | cons t rest ih =>
    intro c qs qn d hc
    by_cases hcc : c + 1 = 5
    · have hb : (c + 1 == 5) = true := by simpa using hcc
      have hk : min (t :: rest).length (5 - c) = 1 := by
        simp only [List.length_cons]
        omega
      simp only [bot6_full_run, limit_hook_on_tool_execution_end, hb,
        if_true, hk]
      refine ⟨by simp [hcc], by simp, ?_, ?_⟩
      · rw [length_log_hook_on_start]
        cases hq : is_query_tool t.name <;> simp [List.filter, hq]
      · rw [eq_comm, decide_eq_true_eq]
        simp only [List.length_cons]
        omega
    · have hb : (c + 1 == 5) = false := by simpa using hcc
      have hc1 : c + 1 < 5 := by omega
      have ihx := ih (c + 1)
        ((log_hook_on_end (log_hook_on_start ⟨qs, qn⟩ t.name t.sql) t.name).queries)
        ((log_hook_on_end (log_hook_on_start ⟨qs, qn⟩ t.name t.sql) t.name).query_count)
        (d + 1) hc1
      have hk : min (t :: rest).length (5 - c)
          = min rest.length (5 - (c + 1)) + 1 := by
        simp only [List.length_cons]
        omega
      have hlen : (log_hook_on_end (log_hook_on_start ⟨qs, qn⟩ t.name t.sql)
          t.name).queries.length
          = qs.length + (if is_query_tool t.name then 1 else 0) := by
        rw [length_log_hook_on_end, length_log_hook_on_start]
      simp only [bot6_full_run, limit_hook_on_tool_execution_end, hb,
        Bool.false_eq_true, if_false] at *
      refine ⟨?_, ?_, ?_, ?_⟩
      · rw [ihx.1, hk]
        congr 1
        omega
      · rw [ihx.2.1, hk]
        omega
      · rw [ihx.2.2.1, hlen, hk]
        simp only [List.take_succ_cons, List.filter]
        cases hq : is_query_tool t.name <;> simp [hq] <;> omega
      · rw [ihx.2.2.2]
        simp only [decide_eq_decide, List.length_cons]
        omega

/-- Processing tool calls from a hook count already at or past the limit:
the equality test never fires again, so every call is dispatched and counted
and the run is never interrupted. -/
lemma bot6_full_run_past_limit (calls : List ToolCall) :
    ∀ (c : Nat) (lg : QueryLogHook) (d : Nat), 5 ≤ c →
      (bot6_full_run ⟨⟨5, c⟩, lg, d, false⟩ calls).interrupted = false ∧
      (bot6_full_run ⟨⟨5, c⟩, lg, d, false⟩ calls).dispatched
        = d + calls.length ∧
      (bot6_full_run ⟨⟨5, c⟩, lg, d, false⟩ calls).limit.tool_call_count
        = c + calls.length := by
  induction calls with
  | nil =>
    intro c lg d hc
    simp [bot6_full_run]
  | cons t rest ih =>
    intro c lg d hc
    have hb : (c + 1 == 5) = false := by
      simp only [beq_eq_false_iff_ne, ne_eq]
      omega
    have ihx := ih (c + 1)
      (log_hook_on_end (log_hook_on_start lg t.name t.sql) t.name)
      (d + 1) (by omega)
    simp only [bot6_full_run, limit_hook_on_tool_execution_end, hb,
      Bool.false_eq_true, if_false]
    refine ⟨ihx.1, ?_, ?_⟩
    · rw [ihx.2.1]
      simp only [List.length_cons]
      omega
    · rw [ihx.2.2]
      simp only [List.length_cons]
      omega

/-! ### Shape of `get_conversation_context` -/

lemma get_conversation_context_eq (ms : List Msg) (mp : Nat) :
    get_conversation_context ms mp =
      if ms.length ≤ 1 then []
      else join_sep "\n\n".data
        (((ms.dropLast).drop (ms.length - (mp * 2 + 1))).map render_msg) := by
  by_cases h : ms.length ≤ 1
  · simp [get_conversation_context, h]
  · have hs : (ms.drop (ms.length - (mp * 2 + 1))).take
        ((ms.length - 1) - (ms.length - (mp * 2 + 1)))
        = (ms.dropLast).drop (ms.length - (mp * 2 + 1)) := by
      rw [List.dropLast_eq_take, List.drop_take]
    simp only [get_conversation_context, h, if_false]
    rw [hs]
    by_cases hr : (ms.dropLast).drop (ms.length - (mp * 2 + 1)) = []
    · simp [hr, join_sep]
    · simp [hr]

/-- C10: `get_conversation_context(messages, max_pairs)` never includes the
final (current) message, returns the empty string whenever `messages` has at
most one entry or `max_pairs` is 0, and renders at most `2 * max_pairs`
prior messages, each as a role-labelled line, in original order (the
rendered list is a suffix of the history without its last element). -/
theorem C10_context_shape :
    (∀ (ms : List Msg) (m m' : Msg) (mp : Nat),
        get_conversation_context (ms ++ [m]) mp
          = get_conversation_context (ms ++ [m']) mp) ∧
    (∀ (ms : List Msg) (mp : Nat), ms.length ≤ 1 ∨ mp = 0 →
        get_conversation_context ms mp = []) ∧
    (∀ (ms : List Msg) (mp : Nat), ∃ s,
        get_conversation_context ms mp
          = join_sep "\n\n".data (((ms.dropLast).drop s).map render_msg) ∧
        ((ms.dropLast).drop s).length ≤ 2 * mp) := by
  refine ⟨?_, ?_, ?_⟩
  · intro ms m m' mp
    rw [get_conversation_context_eq, get_conversation_context_eq]
    simp [List.dropLast_concat]
  · intro ms mp h
    rw [get_conversation_context_eq]
    rcases h with h | rfl
    · simp [h]
    · by_cases h1 : ms.length ≤ 1
      · simp [h1]
      · have hd : (ms.dropLast).drop (ms.length - (0 * 2 + 1)) = [] := by
          apply List.drop_eq_nil_of_le
          simp
        simp [h1, hd, join_sep]
  · intro ms mp
    by_cases h1 : ms.length ≤ 1
    · refine ⟨ms.length, ?_, ?_⟩
      · have hd : (ms.dropLast).drop ms.length = [] := by
          apply List.drop_eq_nil_of_le
          simp [List.length_dropLast]
        rw [get_conversation_context_eq]
        simp [h1, hd, join_sep]
      · have : ((ms.dropLast).drop ms.length).length = 0 := by
          simp [List.length_dropLast]
        omega
    · refine ⟨ms.length - (mp * 2 + 1), ?_, ?_⟩
      · rw [get_conversation_context_eq]
        simp [h1]
      · have := List.length_drop (ms.length - (mp * 2 + 1)) ms.dropLast
        simp only [List.length_dropLast] at this
        omega

/-- C10 witness: a singleton history yields the empty context. -/
theorem C10_context_shape_witness :
    get_conversation_context [⟨"user".data, "hi".data, none⟩] 3 = [] :=
  C10_context_shape.2.1 [⟨"user".data, "hi".data, none⟩] 3 (Or.inl (by decide))

/-- C9: `is_user_confirmation` (and the inline approval test of the stream
variant) classifies every string whose lowercased form contains an approval
keyword as an approval; in particular any string containing the letter 'y'
counts, so the refusal "not yet" takes the budget-reset continuation branch
of the finops-bot3 confirmation handler. -/
theorem C9_y_keyword_over_approves :
    (∀ s : List Char, 'y' ∈ pyLower s →
        is_user_confirmation s = true ∧ bot4_is_approval s = true) ∧
    is_user_confirmation "not yet".data = true ∧
    bot3_confirmation_step ⟨7, true⟩ "not yet".data =
      (⟨0, false⟩, TurnBranch.resetAndContinue) := by
  refine ⟨?_, by decide, by decide⟩
  intro s hy
  constructor
  · have hmem : 'y' ∈ pyStrip (pyLower s) :=
      mem_pyStrip_of_mem (by decide) hy
    have hsub : pySubstr "y".data (pyStrip (pyLower s)) = true := by
      have : pySubstr ['y'] (pyStrip (pyLower s)) = true :=
        (pySubstr_singleton 'y' _).mpr hmem
      simpa using this
    unfold is_user_confirmation
    rw [List.any_eq_true]
    exact ⟨"y".data, by decide, hsub⟩
  · have hsub : pySubstr "y".data (pyLower s) = true := by
      have : pySubstr ['y'] (pyLower s) = true :=
        (pySubstr_singleton 'y' _).mpr hy
      simpa using this
    unfold bot4_is_approval
    rw [List.any_eq_true]
    exact ⟨"y".data, by decide, hsub⟩

/-- C9 witness: the refusal "not yet" is classified as an approval by both
variants. -/
theorem C9_y_keyword_over_approves_witness :
    is_user_confirmation "not yet".data = true ∧
    bot4_is_approval "not yet".data = true :=
  C9_y_keyword_over_approves.1 "not yet".data (by decide)

/-- `bot6_full_run_spec` specialised to the fresh per-turn state. -/
lemma bot6_fresh_run_spec (calls : List ToolCall) :
    (bot6_full_run bot6_fresh calls).limit = ⟨5, min calls.length 5⟩ ∧
    (bot6_full_run bot6_fresh calls).dispatched = min calls.length 5 ∧
    (bot6_full_run bot6_fresh calls).log.queries.length
      = ((calls.take (min calls.length 5)).filter
          (fun t => is_query_tool t.name)).length ∧
    (bot6_full_run bot6_fresh calls).interrupted = decide (5 ≤ calls.length) := by
  have h := bot6_full_run_spec calls 0 [] 0 0 (by omega)
  have h5 : 5 - 0 = 5 := rfl
  rw [h5] at h
  unfold bot6_fresh
  refine ⟨?_, ?_, ?_, ?_⟩
  · rw [h.1]
    simp
  · rw [h.2.1]
    omega
  · rw [h.2.2.1]
    simp
  · rw [h.2.2.2]

/-! ### Claims C1-C8 -/

/-- C1: once exactly `limit` (5) tool-invocation completions have been
counted, the warning/interruption path is taken at the next tool-invocation
attempt and no further tool call is dispatched to the remote tool transport
in that run.  In the stream variant (finops-bot4) the gate fires on the next
tool event, sets the confirmation flag and breaks the loop without
dispatching; in the hook variant (finops-bot6) the `Interrupt` is raised
already while the 5th completion is being counted, so a run offered at least
5 calls is interrupted having dispatched exactly 5. -/
theorem C1_limit_blocks_next_attempt :
    (∀ (st : Bot4LoopState) (evts : List Bot4Event),
        st.query_count = bot4_max_queries →
        (bot4_loop st evts).dispatched = st.dispatched ∧
        ((∃ n, Bot4Event.toolUse n ∈ evts) →
          (bot4_loop st evts).waiting_for_confirmation = true)) ∧
    (∀ calls : List ToolCall, 5 ≤ calls.length →
        (bot6_full_run bot6_fresh calls).interrupted = true ∧
        (bot6_full_run bot6_fresh calls).dispatched = 5 ∧
        (bot6_full_run bot6_fresh calls).limit.tool_call_count = 5) := by
  constructor
  · intro st evts hst
    induction evts with
    | nil =>
      refine ⟨rfl, ?_⟩
      rintro ⟨n, hn⟩
      simp at hn
    | cons e rest ih =>
      cases e with
      | toolUse name =>
        have hge : st.query_count ≥ bot4_max_queries := le_of_eq hst.symm
        simp [bot4_loop, if_pos hge]
      | chunk t =>
        simp only [bot4_loop]
        refine ⟨ih.1, ?_⟩
        rintro ⟨n, hn⟩
        rcases List.mem_cons.mp hn with h | h
        · exact absurd h (by simp)
        · exact ih.2 ⟨n, h⟩
  · intro calls hlen
    have h := bot6_fresh_run_spec calls
    have hk : min calls.length 5 = 5 := by omega
    rw [hk] at h
    refine ⟨?_, h.2.1, by rw [h.1]⟩
    rw [h.2.2.2, decide_eq_true_eq]
    exact hlen

/-- C1 witness: at count 5 a single further tool event takes the warning
path in the stream loop; a fresh hook run offered 6 calls is interrupted. -/
theorem C1_limit_blocks_next_attempt_witness :
    (bot4_loop ⟨5, false, []⟩
        [Bot4Event.toolUse "redshift_execute_query".data]).waiting_for_confirmation
      = true ∧
    (bot6_full_run bot6_fresh
        (List.replicate 6 ⟨"redshift_execute_query".data,
          "SELECT 1".data⟩)).interrupted = true :=
  ⟨(C1_limit_blocks_next_attempt.1 ⟨5, false, []⟩ _ rfl).2
      ⟨"redshift_execute_query".data, List.mem_singleton.mpr rfl⟩,
   (C1_limit_blocks_next_attempt.2 _ (by decide)).1⟩

/-- C2 counterexample: the hook variant's interruption condition is
`tool_call_count == soft_limit` (equality after increment), not
`count >= limit`.  In the state with count 5 and limit 5 — exactly the state
the hook is left in after an interruption, from which `resume()` continues
without any reset — the spec's `is_exhausted` test holds, yet the next
counted completion brings the count to 6 and raises no interrupt; the state
with count 6 also satisfies `count >= limit` but never triggers. -/
theorem C2_counterexample :
    spec_is_exhausted ⟨5, 5⟩ = true ∧
    limit_hook_on_tool_execution_end ⟨5, 5⟩ = (⟨5, 6⟩, false) ∧
    spec_is_exhausted ⟨5, 6⟩ = true := by decide

/-- C2 amended: starting from a reset counter, fewer than `limit`
completions never produce an interrupt and leave the budget unexhausted
(even under the spec's `count >= limit` reading); the stream variant's gate
is literally `count >= limit`; but the hook variant interrupts exactly when
a completion makes the count equal the limit. -/
theorem C2_exhaustion_test :
    (∀ calls : List ToolCall, calls.length < 5 →
        (bot6_full_run bot6_fresh calls).interrupted = false ∧
        spec_is_exhausted (bot6_full_run bot6_fresh calls).limit = false) ∧
    (∀ (st : Bot4LoopState) (name : List Char) (rest : List Bot4Event),
        bot4_loop st (Bot4Event.toolUse name :: rest) =
          if st.query_count ≥ bot4_max_queries then
            { st with waiting_for_confirmation := true }
          else bot4_loop { st with query_count := st.query_count + 1,
                                   dispatched := st.dispatched ++ [name] } rest) ∧
    (∀ h : ToolCallLimitHook,
        ((limit_hook_on_tool_execution_end h).2 = true) ↔
          h.tool_call_count + 1 = h.soft_limit) := by
  refine ⟨?_, fun st name rest => rfl, ?_⟩
  · intro calls hlen
    have h := bot6_fresh_run_spec calls
    constructor
    · rw [h.2.2.2, decide_eq_false_iff_not]
      omega
    · rw [h.1]
      simp only [spec_is_exhausted, decide_eq_false_iff_not]
      simp only [not_le]
      omega
  · intro h
    simp [limit_hook_on_tool_execution_end]

/-- C2 witness: four completions from a reset counter leave the budget
unexhausted and uninterrupted. -/
theorem C2_exhaustion_test_witness :
    (bot6_full_run bot6_fresh
        (List.replicate 4 ⟨"redshift_execute_query".data,
          "SELECT 1".data⟩)).interrupted = false :=
  (C2_exhaustion_test.1 _ (by decide)).1

/-- C3 counterexample: a fresh run that counts 5 completions leaves the hook
at count 5; the continue handler resumes with that stored hook unchanged, so
at the moment the run resumes the counter is 5, not 0 — and a further call
is dispatched with no new interrupt. -/
theorem C3_counterexample :
    (bot6_full_run bot6_fresh
        (List.replicate 5 ⟨"redshift_execute_query".data,
          "SELECT 1".data⟩)).limit = ⟨5, 5⟩ ∧
    (bot6_continue_handler [] ⟨[], [], ⟨⟨5, 5⟩, []⟩, []⟩ []
        "done".data).2.2.limit.tool_call_count = 5 ∧
    ((5 : Nat) ≠ 0) ∧
    (bot6_continue_handler [] ⟨[], [], ⟨⟨5, 5⟩, []⟩, []⟩
        [⟨"redshift_execute_query".data, "SELECT 2".data⟩]
        "t".data).2.2.interrupted = false := by decide

/-- C3 amended: on ApproveContinue the hook variant resumes the stored agent
carrying its internal state forward, but the budget counter is not reset: the
resumed run starts from the stored hook's count, and with that count already
at the limit the equality-based test never fires again, so every further call
is dispatched without interruption.  The prompt-based variant (finops-bot3)
does reset the counter to 0 on approval, but by running a fresh invocation
rather than resuming. -/
theorem C3_continue_no_reset :
    (∀ (msgs : List Msg) (d : InterruptData) (calls : List ToolCall)
        (text : List Char),
        (bot6_continue_handler msgs d calls text).2.2 =
          bot6_full_run ⟨d.agent.hook, ⟨d.query_log, d.query_log.length⟩,
            0, false⟩ calls ∧
        (bot6_continue_handler msgs d calls text).1 =
          msgs ++ [⟨"assistant".data, text, some d.query_log⟩] ∧
        (bot6_continue_handler msgs d calls text).2.1 = none) ∧
    (∀ (msgs : List Msg) (d : InterruptData) (calls : List ToolCall)
        (text : List Char),
        5 ≤ d.agent.hook.tool_call_count → d.agent.hook.soft_limit = 5 →
        (bot6_continue_handler msgs d calls text).2.2.interrupted = false ∧
        (bot6_continue_handler msgs d calls text).2.2.dispatched
          = calls.length ∧
        (bot6_continue_handler msgs d calls text).2.2.limit.tool_call_count
          = d.agent.hook.tool_call_count + calls.length) ∧
    (∀ (qc : Nat) (m : List Char), is_user_confirmation m = true →
        bot3_confirmation_step ⟨qc, true⟩ m
          = (⟨0, false⟩, TurnBranch.resetAndContinue)) := by
  refine ⟨fun msgs d calls text => ⟨rfl, rfl, rfl⟩, ?_, ?_⟩
  · intro msgs d calls text hc hl
    have hagent : d.agent.hook = ⟨5, d.agent.hook.tool_call_count⟩ := by
      cases hh : d.agent.hook with
      | mk s t =>
        rw [hh] at hl
        simp at hl
        simp [hl]
    have h := bot6_full_run_past_limit calls d.agent.hook.tool_call_count
      ⟨d.query_log, d.query_log.length⟩ 0 hc
    have hrun : (bot6_continue_handler msgs d calls text).2.2
        = bot6_full_run ⟨d.agent.hook, ⟨d.query_log, d.query_log.length⟩,
            0, false⟩ calls := rfl
    rw [hrun, hagent]
    exact ⟨h.1, by rw [h.2.1]; omega, h.2.2⟩
  · intro qc m hm
    simp [bot3_confirmation_step, hm]

/-- C3 amended witness: resuming with the hook at count 5 dispatches a
further call with no interruption. -/
theorem C3_continue_no_reset_witness :
    (bot6_continue_handler [] ⟨[], [], ⟨⟨5, 5⟩, []⟩, []⟩
        [⟨"list_tables".data, [] ⟩]
        "t".data).2.2.dispatched = 1 :=
  (C3_continue_no_reset.2.1 [] ⟨[], [], ⟨⟨5, 5⟩, []⟩, []⟩
      [⟨"list_tables".data, []⟩] "t".data (by decide) (by decide)).2.1

/-- C4: choosing Stop at a pending interruption finalizes an assistant
message whose content is exactly the captured `partial_summary`, whose query
log is exactly the captured log, clears the snapshot, and performs no agent
invocation (empty effect list). -/
theorem C4_stop_finalizes_partial_summary :
    ∀ (msgs : List Msg) (d : InterruptData)
      (r : Except (List Char) (List Char)),
      interrupt_block ⟨msgs, some d⟩ UserChoice.stopHere r =
        (⟨msgs ++ [⟨"assistant".data, d.partial_summary, some d.query_log⟩],
          none⟩, []) :=
  fun msgs d r => rfl

/-- C5 counterexample: the temporary summary agent is built by
`create_agent(client, with_hook=False)`, which still passes the client's
full tool list — it is not an agent without tool access. -/
theorem C5_counterexample :
    (bot6_interrupt_handler ["redshift_execute_query".data] ⟨⟨5, 5⟩, []⟩
        "limit".data "summarize".data [] "sum".data).2.1.tools
      = ["redshift_execute_query".data] ∧
    ["redshift_execute_query".data] ≠ ([] : List (List Char)) := by decide

/-- C5 amended: the partial summary comes from a second agent invocation on
the fixed summarize prompt over a copy of the in-progress conversation, made
by an agent carrying no hooks at all — in particular no budget hook, so the
invocation cannot consume from or interrupt the turn's budget, and the main
agent stored in the snapshot is untouched — but that second agent is
constructed with the client's same tool list, not without tool access. -/
theorem C5_summary_agent_hookless :
    ∀ (tools : List (List Char)) (agent : Bot6Agent)
      (im sp : List Char) (qs : List QueryRecord) (stext : List Char),
      (bot6_interrupt_handler tools agent im sp qs stext).2.1.hooks = [] ∧
      agent_has_limit_hook
        (bot6_interrupt_handler tools agent im sp qs stext).2.1 = false ∧
      (bot6_interrupt_handler tools agent im sp qs stext).2.1.messages
        = agent.messages ∧
      (bot6_interrupt_handler tools agent im sp qs stext).2.1.tools = tools ∧
      (bot6_interrupt_handler tools agent im sp qs stext).1.partial_summary
        = stext ∧
      (bot6_interrupt_handler tools agent im sp qs stext).1.agent = agent ∧
      (bot6_interrupt_handler tools agent im sp qs stext).2.2
        = [Effect.agentInvoke sp] :=
  fun tools agent im sp qs stext => ⟨rfl, rfl, rfl, rfl, rfl, rfl, rfl⟩

/-- C6 counterexample: the hook variant's turn-level exception handler
appends the error message without any query log (the gathered partial log is
not attached to the failed turn's record), and the earliest variant has no
guard at all — a failing agent call propagates out of the turn instead of
becoming an assistant message. -/
theorem C6_counterexample :
    bot6_error_handler [] "boom".data =
      [⟨"assistant".data, "❌ 오류 발생: boom".data, none⟩] ∧
    bot1_turn [] "hi".data (Except.error "boom".data)
      = Except.error "boom".data :=
  ⟨by decide, rfl⟩

/-- C6 amended: in the guarded variants every turn failure is converted into
a single visible assistant message that contains the thrown detail, and the
handler itself returns normally; but the failed turn's record carries no
query log, and the earliest variant propagates the failure unguarded. -/
theorem C6_failures_caught_without_log :
    (∀ (msgs : List Msg) (detail : List Char),
        bot6_error_handler msgs detail =
          msgs ++ [⟨"assistant".data, "❌ 오류 발생: ".data ++ detail, none⟩]) ∧
    (∀ detail : List Char,
        pySubstr detail ("❌ 오류 발생: ".data ++ detail) = true) ∧
    (∀ (msgs : List Msg) (prompt e : List Char),
        bot1_turn msgs prompt (Except.error e) = Except.error e) :=
  ⟨fun msgs detail => rfl,
   fun detail => pySubstr_append_self _ detail,
   fun msgs prompt e => rfl⟩

/-- C7: both resolutions of a pending interruption clear the snapshot, and a
second ApproveContinue on the already-resolved state is rejected by the
`if st.session_state.interrupt_state:` guard — it produces no resume effect
and leaves the session unchanged (a no-op, not a crash or a second
execution). -/
theorem C7_resolution_discards_snapshot :
    ∀ (msgs : List Msg) (d : InterruptData) (choice : UserChoice)
      (r r' : Except (List Char) (List Char)),
      ((interrupt_block ⟨msgs, some d⟩ choice r).1.interrupt_state = none) ∧
      (interrupt_block (interrupt_block ⟨msgs, some d⟩ choice r).1
          UserChoice.approveContinue r' =
        ((interrupt_block ⟨msgs, some d⟩ choice r).1, [])) := by
  intro msgs d choice r r'
  cases choice <;> cases r <;> exact ⟨rfl, rfl⟩

/-- C8: the per-turn query log records only tool invocations whose name
contains 'execute_query' while the budget counter counts every completion
(it increments unconditionally), so a run whose dispatched calls include a
non-query tool persists strictly fewer log entries than the budget count;
and the end-event update can change only the most recently started log
entry (all earlier entries and every entry's query text are untouched). -/
theorem C8_log_vs_budget :
    (∀ calls : List ToolCall,
        (bot6_full_run bot6_fresh calls).limit.tool_call_count
          = min calls.length 5 ∧
        (bot6_full_run bot6_fresh calls).log.queries.length
          = ((calls.take (min calls.length 5)).filter
              (fun t => is_query_tool t.name)).length) ∧
    (∀ h : ToolCallLimitHook,
        (limit_hook_on_tool_execution_end h).1.tool_call_count
          = h.tool_call_count + 1) ∧
    (∀ calls : List ToolCall,
        (∃ t ∈ calls.take (min calls.length 5), is_query_tool t.name = false) →
        (bot6_full_run bot6_fresh calls).log.queries.length
          < (bot6_full_run bot6_fresh calls).limit.tool_call_count) ∧
    (∀ (h : QueryLogHook) (nm : List Char),
        ((log_hook_on_end h nm).queries).dropLast = h.queries.dropLast ∧
        ((log_hook_on_end h nm).queries).length = h.queries.length ∧
        ((log_hook_on_end h nm).queries).map QueryRecord.sql
          = h.queries.map QueryRecord.sql) := by
  have base : ∀ calls : List ToolCall,
      (bot6_full_run bot6_fresh calls).limit.tool_call_count
        = min calls.length 5 ∧
      (bot6_full_run bot6_fresh calls).log.queries.length
        = ((calls.take (min calls.length 5)).filter
            (fun t => is_query_tool t.name)).length := by
    intro calls
    have h := bot6_fresh_run_spec calls
    exact ⟨by rw [h.1], h.2.2.1⟩
  refine ⟨base, fun h => rfl, ?_, ?_⟩
  · rintro calls ⟨t, ht, hq⟩
    have hb := base calls
    rw [hb.1, hb.2]
    have hlt : ((calls.take (min calls.length 5)).filter
        (fun t => is_query_tool t.name)).length
        < (calls.take (min calls.length 5)).length :=
      List.length_filter_lt_length_iff_exists.mpr ⟨t, ht, by simp [hq]⟩
    have htk : (calls.take (min calls.length 5)).length
        = min calls.length 5 := by
      simp
    omega
  · intro h nm
    unfold log_hook_on_end
    split
    · exact ⟨set_last_done_dropLast h.queries,
        set_last_done_length h.queries, set_last_done_map_sql h.queries⟩
    · exact ⟨rfl, rfl, rfl⟩

/-- C8 witness: a run with one non-query call and one query call counts 2
completions but persists only 1 log entry. -/
theorem C8_log_vs_budget_witness :
    (bot6_full_run bot6_fresh
        [⟨"list_tables".data, []⟩,
         ⟨"redshift_execute_query".data, "SELECT 1".data⟩]).log.queries.length
      < (bot6_full_run bot6_fresh
        [⟨"list_tables".data, []⟩,
         ⟨"redshift_execute_query".data, "SELECT 1".data⟩]).limit.tool_call_count :=
  C8_log_vs_budget.2.2.1 _ ⟨⟨"list_tables".data, []⟩, by decide, by decide⟩

end FinOpsBot
